import Mathlib

/-!
# Verification of the 2D fast-voxel-traversal engine

A shallow embedding of `src/raycast_2d.rs` (crate `fast-voxel-traversal`).
Floating-point scalars are idealized as exact rationals; the `f32` infinities
that the source manipulates explicitly (in `delta`, `t_max`, `t`, `max_d` and
the ray length) are represented by `WithTop ℚ`, whose order agrees with the
IEEE comparisons the source performs on non-NaN values
(`x < ∞` for finite `x`, `¬(∞ < x)`, `∞ ≤ ∞`).

The two square roots the source computes (`Vec2::normalize` at line 53 and
the corner-to-corner diagonal `IVec2::from(volume.size).as_vec2().length()`
at line 84) are irrational on most inputs, so they enter the embedding as
parameters: `new` receives the already-normalized direction `d` together
with `dnorm` (standing for `‖d‖`, which is `1` in every real execution) and
`diag` (standing for `‖size‖`).  `‖p - aabb‖` at line 77 equals
`‖(-2)•d‖ = 2‖d‖ = 2*dnorm`, which is how that line is rendered below.
-/

namespace FastVoxel

/-- Extended rationals: the value space of the source's `f32` scalars that
may legitimately hold `f32::INFINITY` (`delta`, `t_max`, `t`, `max_d`,
`Ray2::length`). -/
abbrev XQ := WithTop ℚ

/-- `glam::Vec2`, idealized over ℚ. -/
structure Vec2 where
  x : ℚ
  y : ℚ
deriving DecidableEq

/-- `glam::IVec2`. -/
structure IVec2 where
  x : ℤ
  y : ℤ
deriving DecidableEq

/-- `p.floor().as_ivec2()`. -/
def Vec2.floor (p : Vec2) : IVec2 := ⟨⌊p.x⌋, ⌊p.y⌋⟩

/-- `BoundingVolume2 { size: (i32, i32) }`. -/
structure BoundingVolume2 where
  size : ℤ × ℤ
deriving DecidableEq

/-- `BoundingVolume2::contains_point`:
`point.cmpge(IVec2::ZERO).all() && point.cmplt(self.size.into()).all()`. -/
def BoundingVolume2.contains_point (v : BoundingVolume2) (p : IVec2) : Bool :=
  (decide (0 ≤ p.x) && decide (0 ≤ p.y)) &&
    (decide (p.x < v.size.1) && decide (p.y < v.size.2))

/-- `Ray2hit { distance, voxel, normal }`. -/
structure Ray2hit where
  distance : XQ
  voxel : IVec2
  normal : Option IVec2
deriving DecidableEq

/-- The cursor state `VoxelRay2Iterator`. -/
structure VoxelRay2Iterator where
  volume : BoundingVolume2
  max_d : XQ
  i : IVec2
  step : IVec2
  delta : XQ × XQ
  dist : Vec2
  t_max : XQ × XQ
  t : XQ
  norm : Option IVec2
  done : Bool
deriving DecidableEq

/-- `fn test_aabb_of_chunk(volume, from, direction, distance) -> Option<Vec2>`
(source lines 192-226).  The loop over `i in 0..2` is unrolled; `mi` is `0`
exactly when `t[0] > t[1]`, i.e. when `t1 < t0`. -/
def test_aabb_of_chunk (volume : BoundingVolume2) (frm dir : Vec2)
    (distance : XQ) : Option Vec2 :=
  let mx : ℚ := volume.size.1
  let my : ℚ := volume.size.2
  let t0 : ℚ := if 0 < dir.x then (0 - frm.x) / dir.x else (mx - frm.x) / dir.x
  let t1 : ℚ := if 0 < dir.y then (0 - frm.y) / dir.y else (my - frm.y) / dir.y
  if t1 < t0 then
    -- mi = 0, o1 = 1
    if 0 ≤ t0 ∧ ((t0 : ℚ) : XQ) ≤ distance then
      let pt : Vec2 := ⟨frm.x + dir.x * t0, frm.y + dir.y * t0⟩
      if 0 ≤ pt.y ∧ pt.y ≤ my then some pt else none
    else none
  else
    -- mi = 1, o1 = 0
    if 0 ≤ t1 ∧ ((t1 : ℚ) : XQ) ≤ distance then
      let pt : Vec2 := ⟨frm.x + dir.x * t1, frm.y + dir.y * t1⟩
      if 0 ≤ pt.x ∧ pt.x ≤ mx then some pt else none
    else none

/-- `f32::EPSILON`. -/
def eps : ℚ := 1 / 2 ^ 23

/-- `f32::signum` followed by the cast to `i32`: `1` for non-negative input
(the source never produces `-0.0` or NaN here on the inputs we consider),
`-1` for negative input. -/
def qsignum (q : ℚ) : ℤ := if q < 0 then -1 else 1

/-- One component of `delta` (source lines 94-106):
`abs(if |c| < EPSILON { INFINITY } else { 1.0 / c })`. -/
def deltaOf (c : ℚ) : XQ := if |c| < eps then ⊤ else ((|1 / c| : ℚ) : XQ)

/-- One component of the initial `t_max` (source lines 122-133):
`if delta < INFINITY { delta * dist } else { INFINITY }`. -/
def tmaxOf (d : XQ) (dist : ℚ) : XQ :=
  if d < ⊤ then ((d.untop' 0 * dist : ℚ) : XQ) else ⊤

/-- The common tail of `VoxelRay2Iterator::new` (source lines 80-147),
starting from the possibly pre-clipped point `p` and traveled distance `t`. -/
def mkIter (volume : BoundingVolume2) (p d : Vec2) (t : ℚ) (len : XQ)
    (diag : ℚ) : VoxelRay2Iterator :=
  let max_d : XQ := min len (((t + diag + 2 : ℚ) : ℚ) : XQ)
  let i : IVec2 := p.floor
  let step : IVec2 := ⟨qsignum d.x, qsignum d.y⟩
  let delta : XQ × XQ := (deltaOf d.x, deltaOf d.y)
  let dist : Vec2 :=
    ⟨if 0 < step.x then (i.x : ℚ) + 1 - p.x else p.x - (i.x : ℚ),
     if 0 < step.y then (i.y : ℚ) + 1 - p.y else p.y - (i.y : ℚ)⟩
  let t_max : XQ × XQ := (tmaxOf delta.1 dist.x, tmaxOf delta.2 dist.y)
  ⟨volume, max_d, i, step, delta, dist, t_max, ((t : ℚ) : XQ), none, false⟩

/-- `Default::default()` for the cursor (all fields zeroed, as in Rust). -/
def defaultIter : VoxelRay2Iterator :=
  ⟨⟨(0, 0)⟩, ((0 : ℚ) : XQ), ⟨0, 0⟩, ⟨0, 0⟩, (((0 : ℚ) : XQ), ((0 : ℚ) : XQ)),
   ⟨0, 0⟩, (((0 : ℚ) : XQ), ((0 : ℚ) : XQ)), ((0 : ℚ) : XQ), none, false⟩

/-- `VoxelRay2Iterator::new` (source lines 49-147).  `origin` is
`ray.origin`; `d` is the normalized direction `ray.direction.normalize()`;
`dnorm` stands for `‖d‖` (equal to `1` in every real execution); `diag`
stands for `‖volume.size‖`; `len` is `ray.length`.  Line 77,
`t += (p - aabb).length() - 2.0`, is rendered as `t + (2 * dnorm - 2)`
because `p - aabb = (-2)•d` has length `2‖d‖`. -/
def VoxelRay2Iterator.new (volume : BoundingVolume2) (origin d : Vec2)
    (dnorm diag : ℚ) (len : XQ) : VoxelRay2Iterator :=
  if volume.contains_point origin.floor then
    mkIter volume origin d 0 len diag
  else
    match test_aabb_of_chunk volume origin d len with
    | none => { defaultIter with done := true }
    | some aabb =>
      let p : Vec2 := ⟨aabb.x - d.x * 2, aabb.y - d.y * 2⟩
      let t : ℚ := 0 + (2 * dnorm - 2)
      mkIter volume p d t len diag

/-- The unconditional advance inside the stepping loop
(source lines 169-180). -/
def advance (s : VoxelRay2Iterator) : VoxelRay2Iterator :=
  if s.t_max.1 < s.t_max.2 then
    { s with
      i := ⟨s.i.x + s.step.x, s.i.y⟩
      t := s.t_max.1
      t_max := (s.t_max.1 + s.delta.1, s.t_max.2)
      norm := some ⟨-s.step.x, 0⟩ }
  else
    { s with
      i := ⟨s.i.x, s.i.y + s.step.y⟩
      t := s.t_max.2
      t_max := (s.t_max.1, s.t_max.2 + s.delta.2)
      norm := some ⟨0, -s.step.y⟩ }

/-- The hit prepared at the top of a loop iteration (source lines 160-167). -/
def hitOf (s : VoxelRay2Iterator) : Option Ray2hit :=
  if s.volume.contains_point s.i then some ⟨s.t, s.i, s.norm⟩ else none

/-- The `while self.t <= self.max_d` loop of `Iterator::next`
(source lines 158-188), with explicit fuel bounding the number of loop
iterations.  With fuel `0` the pair `(none, s)` is returned with `done`
still unset, which is distinguishable from the genuine loop exit. -/
def nextAux : ℕ → VoxelRay2Iterator → Option Ray2hit × VoxelRay2Iterator
  | 0, s => (none, s)
  | n + 1, s =>
    if s.t ≤ s.max_d then
      match hitOf s with
      | some h => (some h, advance s)
      | none => nextAux n (advance s)
    else (none, { s with done := true })

/-- One pull of the iterator, `Iterator::next` (source lines 153-189). -/
def next (fuel : ℕ) (s : VoxelRay2Iterator) :
    Option Ray2hit × VoxelRay2Iterator :=
  if s.done then (none, s) else nextAux fuel s

/-- The cursor state after `n` successive pulls, each with the given fuel. -/
def pullsState (fuel : ℕ) : ℕ → VoxelRay2Iterator → VoxelRay2Iterator
  | 0, s => s
  | n + 1, s => pullsState fuel n (next fuel s).2

/-! ## Small-step evaluation lemmas -/

theorem nextAux_emit {s : VoxelRay2Iterator} {h : Ray2hit} (n : ℕ)
    (h1 : s.t ≤ s.max_d) (h2 : hitOf s = some h) :
    nextAux (n + 1) s = (some h, advance s) := by
  simp [nextAux, h1, h2]

theorem nextAux_skip {s : VoxelRay2Iterator} (n : ℕ)
    (h1 : s.t ≤ s.max_d) (h2 : hitOf s = none) :
    nextAux (n + 1) s = nextAux n (advance s) := by
  simp [nextAux, h1, h2]

theorem nextAux_exit {s : VoxelRay2Iterator} (n : ℕ)
    (h1 : ¬ s.t ≤ s.max_d) :
    nextAux (n + 1) s = (none, { s with done := true }) := by
  simp [nextAux, h1]

theorem hitOf_in {s : VoxelRay2Iterator}
    (h : s.volume.contains_point s.i = true) :
    hitOf s = some ⟨s.t, s.i, s.norm⟩ := by
  simp [hitOf, h]

theorem hitOf_out {s : VoxelRay2Iterator}
    (h : s.volume.contains_point s.i = false) :
    hitOf s = none := by
  simp [hitOf, h]

theorem hitOf_some_elim {s : VoxelRay2Iterator} {h : Ray2hit}
    (H : hitOf s = some h) :
    s.volume.contains_point s.i = true ∧ h = ⟨s.t, s.i, s.norm⟩ := by
  by_cases hc : s.volume.contains_point s.i
  · refine ⟨hc, ?_⟩
    rw [hitOf_in hc] at H
    exact (Option.some_injective _ H).symm
  · rw [hitOf_out (Bool.not_eq_true _ ▸ hc)] at H
    cases H

theorem hitOf_none_elim {s : VoxelRay2Iterator}
    (H : hitOf s = none) : s.volume.contains_point s.i = false := by
  by_cases hc : s.volume.contains_point s.i
  · rw [hitOf_in hc] at H; cases H
  · exact Bool.not_eq_true _ ▸ hc

theorem advance_x {s : VoxelRay2Iterator} (h : s.t_max.1 < s.t_max.2) :
    advance s =
      { s with
        i := ⟨s.i.x + s.step.x, s.i.y⟩
        t := s.t_max.1
        t_max := (s.t_max.1 + s.delta.1, s.t_max.2)
        norm := some ⟨-s.step.x, 0⟩ } := by
  simp [advance, h]

theorem advance_y {s : VoxelRay2Iterator} (h : ¬ s.t_max.1 < s.t_max.2) :
    advance s =
      { s with
        i := ⟨s.i.x, s.i.y + s.step.y⟩
        t := s.t_max.2
        t_max := (s.t_max.1, s.t_max.2 + s.delta.2)
        norm := some ⟨0, -s.step.y⟩ } := by
  simp [advance, h]

theorem next_of_done {s : VoxelRay2Iterator} (f : ℕ) (h : s.done = true) :
    next f s = (none, s) := by
  simp [next, h]

theorem next_of_not_done {s : VoxelRay2Iterator} (f : ℕ)
    (h : s.done = false) : next f s = nextAux f s := by
  simp [next, h]

/-! ## Fields preserved by `advance` -/

theorem advance_volume (s : VoxelRay2Iterator) :
    (advance s).volume = s.volume := by
  unfold advance; split <;> rfl

theorem advance_max_d (s : VoxelRay2Iterator) :
    (advance s).max_d = s.max_d := by
  unfold advance; split <;> rfl

theorem advance_step (s : VoxelRay2Iterator) :
    (advance s).step = s.step := by
  unfold advance; split <;> rfl

theorem advance_delta (s : VoxelRay2Iterator) :
    (advance s).delta = s.delta := by
  unfold advance; split <;> rfl

theorem advance_done (s : VoxelRay2Iterator) :
    (advance s).done = s.done := by
  unfold advance; split <;> rfl

theorem advance_norm (s : VoxelRay2Iterator) :
    (advance s).norm = some ⟨-s.step.x, 0⟩ ∨
      (advance s).norm = some ⟨0, -s.step.y⟩ := by
  unfold advance; split
  · exact Or.inl rfl
  · exact Or.inr rfl

theorem iter_volume (s : VoxelRay2Iterator) (k : ℕ) :
    (advance^[k] s).volume = s.volume := by
  induction k with
  | zero => rfl
  | succ k ih => rw [Function.iterate_succ_apply', advance_volume, ih]

theorem iter_max_d (s : VoxelRay2Iterator) (k : ℕ) :
    (advance^[k] s).max_d = s.max_d := by
  induction k with
  | zero => rfl
  | succ k ih => rw [Function.iterate_succ_apply', advance_max_d, ih]

theorem iter_step (s : VoxelRay2Iterator) (k : ℕ) :
    (advance^[k] s).step = s.step := by
  induction k with
  | zero => rfl
  | succ k ih => rw [Function.iterate_succ_apply', advance_step, ih]

theorem iter_delta (s : VoxelRay2Iterator) (k : ℕ) :
    (advance^[k] s).delta = s.delta := by
  induction k with
  | zero => rfl
  | succ k ih => rw [Function.iterate_succ_apply', advance_delta, ih]

theorem iter_done (s : VoxelRay2Iterator) (k : ℕ) :
    (advance^[k] s).done = s.done := by
  induction k with
  | zero => rfl
  | succ k ih => rw [Function.iterate_succ_apply', advance_done, ih]

/-! ## Characterization of a successful pull

A pull that returns a hit consists of `j` silent advances over voxels that
are not contained in the volume, all made while `t` is within the travel
bound, followed by the emission of the hit prepared at iterate `j` and one
more advance. -/

theorem nextAux_some {n : ℕ} {s s' : VoxelRay2Iterator} {h : Ray2hit}
    (H : nextAux n s = (some h, s')) :
    ∃ j, j < n ∧ s' = advance (advance^[j] s) ∧
      hitOf (advance^[j] s) = some h ∧
      (∀ m, m ≤ j → (advance^[m] s).t ≤ s.max_d) ∧
      (∀ m, m < j → hitOf (advance^[m] s) = none) := by
  induction n generalizing s with
  | zero => cases H
  | succ n ih =>
    by_cases h1 : s.t ≤ s.max_d
    · cases hh : hitOf s with
      | some h0 =>
        rw [nextAux_emit n h1 hh] at H
        obtain ⟨he, hs⟩ := Prod.mk.injEq .. ▸ H
        refine ⟨0, Nat.succ_pos n, ?_, ?_, ?_, ?_⟩
        · exact hs.symm
        · rw [Function.iterate_zero_apply, hh, he]
        · intro m hm
          interval_cases m
          simpa using h1
        · intro m hm; cases hm
      | none =>
        rw [nextAux_skip n h1 hh] at H
        obtain ⟨j, hj, hs, hhit, hbound, hnone⟩ := ih H
        refine ⟨j + 1, Nat.succ_lt_succ hj, ?_, ?_, ?_, ?_⟩
        · rw [hs, Function.iterate_succ_apply]
        · rw [Function.iterate_succ_apply]; exact hhit
        · intro m hm
          cases m with
          | zero => simpa using h1
          | succ m =>
            rw [Function.iterate_succ_apply]
            rw [show s.max_d = (advance s).max_d from (advance_max_d s).symm]
            exact hbound m (Nat.le_of_succ_le_succ hm)
        · intro m hm
          cases m with
          | zero => simpa using hh
          | succ m =>
            rw [Function.iterate_succ_apply]
            exact hnone m (Nat.lt_of_succ_lt_succ hm)
    · rw [nextAux_exit n h1] at H
      cases (Prod.mk.injEq .. ▸ H).1

theorem next_some {f : ℕ} {s s' : VoxelRay2Iterator} {h : Ray2hit}
    (H : next f s = (some h, s')) :
    s.done = false ∧
    ∃ j, j < f ∧ s' = advance (advance^[j] s) ∧
      hitOf (advance^[j] s) = some h ∧
      (∀ m, m ≤ j → (advance^[m] s).t ≤ s.max_d) ∧
      (∀ m, m < j → hitOf (advance^[m] s) = none) := by
  by_cases hd : s.done
  · rw [next_of_done f hd] at H
    cases (Prod.mk.injEq .. ▸ H).1
  · have hd' : s.done = false := Bool.not_eq_true _ ▸ hd
    rw [next_of_not_done f hd'] at H
    exact ⟨hd', nextAux_some H⟩

/-! ## The distance invariant

`t` never exceeds either component of `t_max`, and the strides are
non-negative; under this invariant `t` is non-decreasing across advances. -/

/-- The cursor invariant relating `t`, `t_max` and `delta`. -/
def InvT (s : VoxelRay2Iterator) : Prop :=
  s.t ≤ s.t_max.1 ∧ s.t ≤ s.t_max.2 ∧ 0 ≤ s.delta.1 ∧ 0 ≤ s.delta.2

theorem invT_advance {s : VoxelRay2Iterator} (h : InvT s) :
    InvT (advance s) ∧ s.t ≤ (advance s).t := by
  obtain ⟨h1, h2, h3, h4⟩ := h
  by_cases hxy : s.t_max.1 < s.t_max.2
  · rw [advance_x hxy]
    exact ⟨⟨le_add_of_nonneg_right h3, le_of_lt hxy, h3, h4⟩, h1⟩
  · rw [advance_y hxy]
    exact ⟨⟨not_lt.mp hxy, le_add_of_nonneg_right h4, h3, h4⟩, h2⟩

theorem invT_iter {s : VoxelRay2Iterator} (h : InvT s) (k : ℕ) :
    InvT (advance^[k] s) := by
  induction k with
  | zero => exact h
  | succ k ih =>
    rw [Function.iterate_succ_apply']
    exact (invT_advance ih).1

theorem iter_t_mono {s : VoxelRay2Iterator} (h : InvT s) {k l : ℕ}
    (hkl : k ≤ l) : (advance^[k] s).t ≤ (advance^[l] s).t := by
  have step : ∀ m : ℕ, (advance^[m] s).t ≤ (advance^[m + 1] s).t := by
    intro m
    rw [Function.iterate_succ_apply']
    exact (invT_advance (invT_iter h m)).2
  exact monotone_nat_of_le_succ step hkl

/-! ## Termination machinery

The minimum of the two `t_max` components grows by at least the least
stride every two advances, so `t` eventually exceeds any finite `max_d`. -/

/-- The smaller of the two next-boundary distances. -/
def mint (s : VoxelRay2Iterator) : XQ := min s.t_max.1 s.t_max.2

theorem advance_t_eq_mint (s : VoxelRay2Iterator) :
    (advance s).t = mint s := by
  by_cases hxy : s.t_max.1 < s.t_max.2
  · rw [advance_x hxy]
    exact (min_eq_left (le_of_lt hxy)).symm
  · rw [advance_y hxy]
    exact (min_eq_right (not_lt.mp hxy)).symm

theorem iter_t_succ (s : VoxelRay2Iterator) (k : ℕ) :
    (advance^[k + 1] s).t = mint (advance^[k] s) := by
  rw [Function.iterate_succ_apply', advance_t_eq_mint]

theorem mint_advance_le {s : VoxelRay2Iterator}
    (h3 : (0 : XQ) ≤ s.delta.1) (h4 : (0 : XQ) ≤ s.delta.2) :
    mint s ≤ mint (advance s) := by
  by_cases hxy : s.t_max.1 < s.t_max.2
  · rw [advance_x hxy]
    refine le_min ?_ ?_
    · exact le_trans (min_le_left _ _) (le_add_of_nonneg_right h3)
    · exact min_le_right _ _
  · rw [advance_y hxy]
    refine le_min ?_ ?_
    · exact min_le_left _ _
    · exact le_trans (min_le_right _ _) (le_add_of_nonneg_right h4)

theorem mint_iter_mono {s : VoxelRay2Iterator}
    (h3 : (0 : XQ) ≤ s.delta.1) (h4 : (0 : XQ) ≤ s.delta.2) {k l : ℕ}
    (hkl : k ≤ l) : mint (advance^[k] s) ≤ mint (advance^[l] s) := by
  have step : ∀ m : ℕ, mint (advance^[m] s) ≤ mint (advance^[m + 1] s) := by
    intro m
    rw [Function.iterate_succ_apply']
    exact mint_advance_le (iter_delta s m ▸ h3) (iter_delta s m ▸ h4)
  exact monotone_nat_of_le_succ step hkl

theorem tmax_advance_x {s : VoxelRay2Iterator} (h : s.t_max.1 < s.t_max.2) :
    (advance s).t_max = (s.t_max.1 + s.delta.1, s.t_max.2) := by
  rw [advance_x h]

theorem tmax_advance_y {s : VoxelRay2Iterator} (h : ¬ s.t_max.1 < s.t_max.2) :
    (advance s).t_max = (s.t_max.1, s.t_max.2 + s.delta.2) := by
  rw [advance_y h]

theorem mint_advance_x {s : VoxelRay2Iterator} (h : s.t_max.1 < s.t_max.2) :
    mint (advance s) = min (s.t_max.1 + s.delta.1) s.t_max.2 := by
  rw [mint, advance_x h]

theorem mint_advance_y {s : VoxelRay2Iterator} (h : ¬ s.t_max.1 < s.t_max.2) :
    mint (advance s) = min s.t_max.1 (s.t_max.2 + s.delta.2) := by
  rw [mint, advance_y h]

theorem mint_two_step {s : VoxelRay2Iterator} {c : ℚ} (hc : 0 ≤ c)
    (h1 : ((c : ℚ) : XQ) ≤ s.delta.1) (h2 : ((c : ℚ) : XQ) ≤ s.delta.2) :
    mint s + ((c : ℚ) : XQ) ≤ mint (advance (advance s)) := by
  have hc' : (0 : XQ) ≤ ((c : ℚ) : XQ) := by
    rw [← WithTop.coe_zero, WithTop.coe_le_coe]; exact hc
  have h3 : (0 : XQ) ≤ s.delta.1 := le_trans hc' h1
  have h4 : (0 : XQ) ≤ s.delta.2 := le_trans hc' h2
  by_cases hxy : s.t_max.1 < s.t_max.2
  · have hm : mint s = s.t_max.1 := min_eq_left (le_of_lt hxy)
    by_cases hxy2 : s.t_max.1 + s.delta.1 < s.t_max.2
    · have hxy2' : (advance s).t_max.1 < (advance s).t_max.2 := by
        rw [tmax_advance_x hxy]; exact hxy2
      have em : mint (advance (advance s)) =
          min (s.t_max.1 + s.delta.1 + s.delta.1) s.t_max.2 := by
        rw [mint_advance_x hxy2', tmax_advance_x hxy, advance_delta]
      rw [em, hm]
      refine le_min ?_ ?_
      · exact le_trans (add_le_add_left h1 _) (le_add_of_nonneg_right h3)
      · exact le_of_lt (lt_of_le_of_lt (add_le_add_left h1 _) hxy2)
    · have hxy2' : ¬ (advance s).t_max.1 < (advance s).t_max.2 := by
        rw [tmax_advance_x hxy]; exact hxy2
      have em : mint (advance (advance s)) =
          min (s.t_max.1 + s.delta.1) (s.t_max.2 + s.delta.2) := by
        rw [mint_advance_y hxy2', tmax_advance_x hxy, advance_delta]
      rw [em, hm]
      refine le_min ?_ ?_
      · exact add_le_add_left h1 _
      · exact add_le_add (le_of_lt hxy) h2
  · have hyx : s.t_max.2 ≤ s.t_max.1 := not_lt.mp hxy
    have hm : mint s = s.t_max.2 := min_eq_right hyx
    by_cases hxy2 : s.t_max.1 < s.t_max.2 + s.delta.2
    · have hxy2' : (advance s).t_max.1 < (advance s).t_max.2 := by
        rw [tmax_advance_y hxy]; exact hxy2
      have em : mint (advance (advance s)) =
          min (s.t_max.1 + s.delta.1) (s.t_max.2 + s.delta.2) := by
        rw [mint_advance_x hxy2', tmax_advance_y hxy, advance_delta]
      rw [em, hm]
      refine le_min ?_ ?_
      · exact add_le_add hyx h1
      · exact add_le_add_left h2 _
    · have hxy2' : ¬ (advance s).t_max.1 < (advance s).t_max.2 := by
        rw [tmax_advance_y hxy]; exact hxy2
      have em : mint (advance (advance s)) =
          min s.t_max.1 (s.t_max.2 + s.delta.2 + s.delta.2) := by
        rw [mint_advance_y hxy2', tmax_advance_y hxy, advance_delta]
      rw [em, hm]
      refine le_min ?_ ?_
      · exact le_trans (add_le_add_left h2 _) (not_lt.mp hxy2)
      · exact le_trans (add_le_add_left h2 _) (le_add_of_nonneg_right h4)

theorem mint_iter_lower {s : VoxelRay2Iterator} {c : ℚ} (hc : 0 ≤ c)
    (h1 : ((c : ℚ) : XQ) ≤ s.delta.1) (h2 : ((c : ℚ) : XQ) ≤ s.delta.2)
    (r : ℕ) :
    mint s + (((r : ℚ) * c : ℚ) : XQ) ≤ mint (advance^[2 * r] s) := by
  induction r with
  | zero => simp
  | succ r ih =>
    have key : mint (advance^[2 * r] s) + ((c : ℚ) : XQ) ≤
        mint (advance^[2 * r + 2] s) := by
      have e : advance^[2 * r + 2] s =
          advance (advance (advance^[2 * r] s)) := by
        rw [show 2 * r + 2 = 2 + 2 * r by ring, Function.iterate_add_apply]
        rfl
      rw [e]
      exact mint_two_step hc (iter_delta s (2 * r) ▸ h1)
        (iter_delta s (2 * r) ▸ h2)
    have e2 : (2 : ℕ) * (r + 1) = 2 * r + 2 := by ring
    rw [e2]
    have hsplit : ((((r + 1 : ℕ) : ℚ) * c : ℚ) : XQ) =
        ((((r : ℕ) : ℚ) * c : ℚ) : XQ) + ((c : ℚ) : XQ) := by
      rw [← WithTop.coe_add]
      refine WithTop.coe_eq_coe.mpr ?_
      push_cast
      ring
    rw [hsplit, ← add_assoc]
    exact le_trans (add_le_add_right ih _) key

theorem t_exceeds {s : VoxelRay2Iterator} {c M : ℚ} (hc : 0 < c)
    (h1 : ((c : ℚ) : XQ) ≤ s.delta.1) (h2 : ((c : ℚ) : XQ) ≤ s.delta.2)
    (hm0 : (0 : XQ) ≤ mint s) (hM : s.max_d = ((M : ℚ) : XQ)) :
    ∃ B, ∀ k, B ≤ k → ¬ ((advance^[k] s).t ≤ s.max_d) := by
  obtain ⟨r, hr⟩ := exists_nat_gt (M / c)
  have hrc : M < (r : ℚ) * c := by
    have := (div_lt_iff₀ hc).mp hr
    linarith
  have hc' : (0 : XQ) ≤ ((c : ℚ) : XQ) := by
    rw [← WithTop.coe_zero, WithTop.coe_le_coe]; exact le_of_lt hc
  have h3 : (0 : XQ) ≤ s.delta.1 := le_trans hc' h1
  have h4 : (0 : XQ) ≤ s.delta.2 := le_trans hc' h2
  refine ⟨2 * r + 1, fun k hk => ?_⟩
  obtain ⟨k', rfl⟩ : ∃ k', k = k' + 1 :=
    ⟨k - 1, by omega⟩
  have hk' : 2 * r ≤ k' := by omega
  have hlow : (((r : ℚ) * c : ℚ) : XQ) ≤ mint (advance^[k'] s) := by
    calc (((r : ℚ) * c : ℚ) : XQ)
        = 0 + (((r : ℚ) * c : ℚ) : XQ) := (zero_add _).symm
      _ ≤ mint s + (((r : ℚ) * c : ℚ) : XQ) := add_le_add_right hm0 _
      _ ≤ mint (advance^[2 * r] s) := mint_iter_lower (le_of_lt hc) h1 h2 r
      _ ≤ mint (advance^[k'] s) := mint_iter_mono h3 h4 hk'
  rw [iter_t_succ, hM]
  intro hle
  have : (((r : ℚ) * c : ℚ) : XQ) ≤ ((M : ℚ) : XQ) := le_trans hlow hle
  rw [WithTop.coe_le_coe] at this
  exact absurd hrc (not_lt.mpr this)

/-! ## Pull composition

Each pull either exhausts its fuel after `fuel` advances, exits the loop and
raises the `done` flag, or emits a hit after `m + 1` advances. -/

theorem nextAux_cases (n : ℕ) (s : VoxelRay2Iterator) :
    (nextAux n s).2 = advance^[n] s ∨
    (∃ m, m ≤ n ∧ (nextAux n s).2 = { (advance^[m] s) with done := true }) ∨
    (∃ h m, m < n ∧ nextAux n s = (some h, advance^[m + 1] s)) := by
  induction n generalizing s with
  | zero => exact Or.inl rfl
  | succ n ih =>
    by_cases h1 : s.t ≤ s.max_d
    · cases hh : hitOf s with
      | some h0 =>
        refine Or.inr (Or.inr ⟨h0, 0, Nat.succ_pos n, ?_⟩)
        rw [nextAux_emit n h1 hh, Function.iterate_one]
      | none =>
        rw [nextAux_skip n h1 hh]
        rcases ih (advance s) with hc | ⟨m, hm, hc⟩ | ⟨h, m, hm, hc⟩
        · left
          rw [hc, ← Function.iterate_succ_apply]
        · refine Or.inr (Or.inl ⟨m + 1, Nat.succ_le_succ hm, ?_⟩)
          rw [hc, Function.iterate_succ_apply]
        · refine Or.inr (Or.inr ⟨h, m + 1, Nat.succ_lt_succ hm, ?_⟩)
          rw [hc]
          simp only [Function.iterate_succ_apply]
    · refine Or.inr (Or.inl ⟨0, Nat.zero_le _, ?_⟩)
      rw [nextAux_exit n h1]
      rfl

theorem pullsState_eq_iterate (f n : ℕ) (s : VoxelRay2Iterator) :
    pullsState f n s = (fun s => (next f s).2)^[n] s := by
  induction n generalizing s with
  | zero => rfl
  | succ n ih =>
    rw [pullsState, ih, Function.iterate_succ_apply]

theorem pullsState_succ_right (f n : ℕ) (s : VoxelRay2Iterator) :
    pullsState f (n + 1) s = (next f (pullsState f n s)).2 := by
  rw [pullsState_eq_iterate, pullsState_eq_iterate,
    Function.iterate_succ_apply']

theorem pullsState_of_done {s : VoxelRay2Iterator} (f n : ℕ)
    (h : s.done = true) : pullsState f n s = s := by
  induction n with
  | zero => rfl
  | succ n ih => rw [pullsState, next_of_done f h, ih]

/-- Any cursor whose strides are bounded below by a positive rational, whose
`t_max` components are non-negative and whose travel bound is finite reaches
the `done` state after a bounded number of pulls. -/
theorem reach_done {s : VoxelRay2Iterator} {c M : ℚ}
    (hdone : s.done = false) (hc : 0 < c)
    (h1 : ((c : ℚ) : XQ) ≤ s.delta.1) (h2 : ((c : ℚ) : XQ) ≤ s.delta.2)
    (hm0 : (0 : XQ) ≤ mint s) (hM : s.max_d = ((M : ℚ) : XQ)) :
    ∃ N, 1 ≤ N ∧ (pullsState N N s).done = true := by
  obtain ⟨B, hB⟩ := t_exceeds hc h1 h2 hm0 hM
  refine ⟨B + 1, Nat.le_add_left 1 B, ?_⟩
  have inv : ∀ k, (pullsState (B + 1) k s).done = true ∨
      ∃ cnt, k ≤ cnt ∧ pullsState (B + 1) k s = advance^[cnt] s := by
    intro k
    induction k with
    | zero => exact Or.inr ⟨0, Nat.le_refl 0, rfl⟩
    | succ k ih =>
      rcases ih with hdk | ⟨cnt, hcnt, heq⟩
      · left
        rw [pullsState_succ_right, next_of_done _ hdk]
        exact hdk
      · rw [pullsState_succ_right, heq]
        have hdc : (advance^[cnt] s).done = false := by
          rw [iter_done]; exact hdone
        rw [next_of_not_done _ hdc]
        by_cases hbig : B ≤ cnt
        · left
          have hex : ¬ (advance^[cnt] s).t ≤ (advance^[cnt] s).max_d := by
            rw [iter_max_d]
            exact hB cnt hbig
          rw [nextAux_exit B hex]
        · rcases nextAux_cases (B + 1) (advance^[cnt] s) with hc1 | ⟨m, _, hc2⟩
            | ⟨h, m, _, hc3⟩
          · refine Or.inr ⟨B + 1 + cnt, by omega, ?_⟩
            rw [hc1, ← Function.iterate_add_apply]
          · left
            rw [hc2]
          · refine Or.inr ⟨m + 1 + cnt, by omega, ?_⟩
            rw [hc3, ← Function.iterate_add_apply]
  rcases inv B with hdB | ⟨cnt, hcnt, heq⟩
  · rw [show B + 1 = B + 1 from rfl, pullsState_succ_right,
      next_of_done _ hdB]
    exact hdB
  · rw [pullsState_succ_right, heq]
    have hdc : (advance^[cnt] s).done = false := by
      rw [iter_done]; exact hdone
    rw [next_of_not_done _ hdc]
    have hex : ¬ (advance^[cnt] s).t ≤ (advance^[cnt] s).max_d := by
      rw [iter_max_d]
      exact hB cnt hcnt
    rw [nextAux_exit B hex]

/-! ## Facts about freshly constructed cursors -/

/-- A positive lower bound for one stride component: `1` when the stride is
infinite, the stride itself otherwise. -/
def strideLB (c : ℚ) : ℚ := if |c| < eps then 1 else |1 / c|

theorem strideLB_pos (c : ℚ) : 0 < strideLB c := by
  unfold strideLB
  split
  · norm_num
  · rename_i h
    have hc0 : c ≠ 0 := by
      intro h0
      rw [h0] at h
      norm_num [eps] at h
    exact abs_pos.mpr (one_div_ne_zero hc0)

theorem strideLB_le_deltaOf (c : ℚ) :
    ((strideLB c : ℚ) : XQ) ≤ deltaOf c := by
  unfold strideLB deltaOf
  split
  · exact le_top
  · exact le_refl _

theorem tmaxOf_deltaOf_nonneg (c q : ℚ) (hq : 0 ≤ q) :
    (0 : XQ) ≤ tmaxOf (deltaOf c) q := by
  unfold deltaOf tmaxOf
  split
  · simp
  · rename_i h
    rw [if_pos (WithTop.coe_lt_top _)]
    rw [← WithTop.coe_zero, WithTop.coe_le_coe, WithTop.untop'_coe]
    exact mul_nonneg (abs_nonneg _) hq

theorem mkIter_dist_nonneg (volume : BoundingVolume2) (p d : Vec2)
    (t : ℚ) (len : XQ) (diag : ℚ) :
    0 ≤ (mkIter volume p d t len diag).dist.x ∧
    0 ≤ (mkIter volume p d t len diag).dist.y := by
  unfold mkIter
  constructor
  · dsimp only [Vec2.floor]
    split
    · have := Int.lt_floor_add_one p.x
      linarith
    · have := Int.floor_le p.x
      linarith
  · dsimp only [Vec2.floor]
    split
    · have := Int.lt_floor_add_one p.y
      linarith
    · have := Int.floor_le p.y
      linarith

theorem mkIter_mint_nonneg (volume : BoundingVolume2) (p d : Vec2)
    (t : ℚ) (len : XQ) (diag : ℚ) :
    (0 : XQ) ≤ mint (mkIter volume p d t len diag) := by
  obtain ⟨hx, hy⟩ := mkIter_dist_nonneg volume p d t len diag
  refine le_min ?_ ?_
  · exact tmaxOf_deltaOf_nonneg d.x _ hx
  · exact tmaxOf_deltaOf_nonneg d.y _ hy

theorem mkIter_max_d_finite (volume : BoundingVolume2) (p d : Vec2)
    (t : ℚ) (len : XQ) (diag : ℚ) :
    ∃ M : ℚ, (mkIter volume p d t len diag).max_d = ((M : ℚ) : XQ) := by
  unfold mkIter
  dsimp only
  cases len with
  | none =>
    exact ⟨t + diag + 2, min_eq_right le_top⟩
  | some l =>
    exact ⟨min l (t + diag + 2), (WithTop.coe_min _ _).symm⟩

theorem mkIter_terminates (volume : BoundingVolume2) (p d : Vec2)
    (t : ℚ) (len : XQ) (diag : ℚ) :
    ∃ N, 1 ≤ N ∧
      (pullsState N N (mkIter volume p d t len diag)).done = true := by
  obtain ⟨M, hM⟩ := mkIter_max_d_finite volume p d t len diag
  refine reach_done rfl (c := min (strideLB d.x) (strideLB d.y))
    (lt_min (strideLB_pos d.x) (strideLB_pos d.y)) ?_ ?_
    (mkIter_mint_nonneg volume p d t len diag) hM
  · refine le_trans ?_ (strideLB_le_deltaOf d.x)
    rw [WithTop.coe_le_coe]
    exact min_le_left _ _
  · refine le_trans ?_ (strideLB_le_deltaOf d.y)
    rw [WithTop.coe_le_coe]
    exact min_le_right _ _

/-- Every constructed traversal reaches the `done` state after a bounded
number of pulls, after which every pull returns no hit. -/
theorem new_terminates (volume : BoundingVolume2) (origin d : Vec2)
    (dnorm diag : ℚ) (len : XQ) :
    ∃ N, (pullsState N N
        (VoxelRay2Iterator.new volume origin d dnorm diag len)).done = true ∧
      ∀ f, next f (pullsState N N
          (VoxelRay2Iterator.new volume origin d dnorm diag len)) =
        (none, pullsState N N
          (VoxelRay2Iterator.new volume origin d dnorm diag len)) := by
  have main : ∃ N, (pullsState N N
      (VoxelRay2Iterator.new volume origin d dnorm diag len)).done = true := by
    unfold VoxelRay2Iterator.new
    split
    · obtain ⟨N, _, hN⟩ := mkIter_terminates volume origin d 0 len diag
      exact ⟨N, hN⟩
    · split
      · exact ⟨1, by rw [pullsState_of_done 1 1 rfl]⟩
      · obtain ⟨N, _, hN⟩ := mkIter_terminates volume _ d _ len diag
        exact ⟨N, hN⟩
  obtain ⟨N, hN⟩ := main
  exact ⟨N, hN, fun f => next_of_done f hN⟩

/-! ## Concrete evaluation helpers -/

theorem contains_point_iff (v : BoundingVolume2) (p : IVec2) :
    v.contains_point p = true ↔
      0 ≤ p.x ∧ 0 ≤ p.y ∧ p.x < v.size.1 ∧ p.y < v.size.2 := by
  unfold BoundingVolume2.contains_point
  simp [Bool.and_eq_true, decide_eq_true_eq, and_assoc]

theorem tmaxOf_coe (a q : ℚ) :
    tmaxOf ((a : ℚ) : XQ) q = ((a * q : ℚ) : XQ) := by
  unfold tmaxOf
  rw [if_pos (WithTop.coe_lt_top a), WithTop.untop'_coe]

theorem deltaOf_pos {c : ℚ} (hc : 0 < c) (he : eps ≤ c) :
    deltaOf c = ((1 / c : ℚ) : XQ) := by
  unfold deltaOf
  rw [if_neg (not_lt.mpr (le_trans he (le_abs_self c))),
    abs_of_pos (by positivity)]

theorem qsignum_pos {c : ℚ} (hc : 0 < c) : qsignum c = 1 := by
  unfold qsignum
  rw [if_neg (not_lt.mpr (le_of_lt hc))]

/-- Full evaluation of `mkIter` when both direction components are positive
and at least `eps`. -/
theorem mkIter_eval_pp (volume : BoundingVolume2) (p d : Vec2)
    (t diag : ℚ) (len : XQ)
    (hdx : 0 < d.x) (hdy : 0 < d.y) (hex : eps ≤ d.x) (hey : eps ≤ d.y) :
    mkIter volume p d t len diag =
      ⟨volume, min len (((t + diag + 2 : ℚ)) : XQ), ⟨⌊p.x⌋, ⌊p.y⌋⟩, ⟨1, 1⟩,
       (((1 / d.x : ℚ) : XQ), ((1 / d.y : ℚ) : XQ)),
       ⟨(⌊p.x⌋ : ℚ) + 1 - p.x, (⌊p.y⌋ : ℚ) + 1 - p.y⟩,
       (((1 / d.x * ((⌊p.x⌋ : ℚ) + 1 - p.x) : ℚ) : XQ),
        ((1 / d.y * ((⌊p.y⌋ : ℚ) + 1 - p.y) : ℚ) : XQ)),
       ((t : ℚ) : XQ), none, false⟩ := by
  unfold mkIter
  simp only [Vec2.floor, qsignum_pos hdx, qsignum_pos hdy,
    deltaOf_pos hdx hex, deltaOf_pos hdy hey, tmaxOf_coe]
  norm_num

theorem new_eval_inside (volume : BoundingVolume2) (origin d : Vec2)
    (dnorm diag : ℚ) (len : XQ)
    (h : volume.contains_point origin.floor = true) :
    VoxelRay2Iterator.new volume origin d dnorm diag len =
      mkIter volume origin d 0 len diag := by
  unfold VoxelRay2Iterator.new
  rw [if_pos h]

theorem new_eval_clip (volume : BoundingVolume2) (origin d : Vec2)
    (dnorm diag : ℚ) (len : XQ) (aabb : Vec2)
    (h : volume.contains_point origin.floor = false)
    (hclip : test_aabb_of_chunk volume origin d len = some aabb) :
    VoxelRay2Iterator.new volume origin d dnorm diag len =
      mkIter volume ⟨aabb.x - d.x * 2, aabb.y - d.y * 2⟩ d
        (0 + (2 * dnorm - 2)) len diag := by
  unfold VoxelRay2Iterator.new
  rw [if_neg (by rw [h]; exact Bool.false_ne_true), hclip]

theorem new_eval_noclip (volume : BoundingVolume2) (origin d : Vec2)
    (dnorm diag : ℚ) (len : XQ)
    (h : volume.contains_point origin.floor = false)
    (hclip : test_aabb_of_chunk volume origin d len = none) :
    VoxelRay2Iterator.new volume origin d dnorm diag len =
      { defaultIter with done := true } := by
  unfold VoxelRay2Iterator.new
  rw [if_neg (by rw [h]; exact Bool.false_ne_true), hclip]

/-! ## Claim C2 -/

/-- Claim C2: for every hit record emitted by a traversal pull, the voxel
coordinate satisfies the Grid Volume's containment predicate, i.e. for every
axis the coordinate lies in `[0, size[axis])`. -/
theorem C2_containment (s : VoxelRay2Iterator) (f : ℕ) (h : Ray2hit)
    (s' : VoxelRay2Iterator) (H : next f s = (some h, s')) :
    s.volume.contains_point h.voxel = true ∧
    0 ≤ h.voxel.x ∧ h.voxel.x < s.volume.size.1 ∧
    0 ≤ h.voxel.y ∧ h.voxel.y < s.volume.size.2 := by
  obtain ⟨-, j, -, -, hhit, -, -⟩ := next_some H
  obtain ⟨hc, hveq⟩ := hitOf_some_elim hhit
  subst hveq
  rw [iter_volume] at hc
  obtain ⟨h1, h2, h3, h4⟩ := (contains_point_iff _ _).mp hc
  exact ⟨hc, h1, h3, h2, h4⟩

/-- A concrete in-volume cursor state used to witness C2. -/
def c2state : VoxelRay2Iterator :=
  ⟨⟨(3, 4)⟩, ((7 : ℚ) : XQ), ⟨0, 0⟩, ⟨1, 1⟩, (((1 : ℚ) : XQ), ((1 : ℚ) : XQ)),
   ⟨1, 1⟩, (((1 : ℚ) : XQ), ((2 : ℚ) : XQ)), ((0 : ℚ) : XQ), none, false⟩

theorem C2_containment_w :
    (⟨(3, 4)⟩ : BoundingVolume2).contains_point ⟨0, 0⟩ = true ∧
    (0 : ℤ) ≤ 0 ∧ (0 : ℤ) < 3 ∧ (0 : ℤ) ≤ 0 ∧ (0 : ℤ) < 4 := by
  refine C2_containment c2state 1 ⟨((0 : ℚ) : XQ), ⟨0, 0⟩, none⟩
    (advance c2state) ?_
  have hcond : c2state.t ≤ c2state.max_d :=
    WithTop.coe_le_coe.mpr (by norm_num)
  have hh : hitOf c2state = some ⟨((0 : ℚ) : XQ), ⟨0, 0⟩, none⟩ :=
    hitOf_in (by decide)
  rw [next_of_not_done 1 rfl, nextAux_emit 0 hcond hh]

/-- Concrete floor evaluation helper. -/
theorem qfloor_eq (a : ℚ) (z : ℤ) (h1 : (z : ℚ) ≤ a) (h2 : a < z + 1) :
    ⌊a⌋ = z := Int.floor_eq_iff.mpr ⟨h1, h2⟩

/-! ## Claim C4 -/

/-- Claim C4: in every stepping iteration, the cursor selects the axis with
the smallest current `t_max`; on an exact tie (and generally whenever
`t_max.y ≤ t_max.x`) the higher-indexed axis `y` is stepped.  The selected
axis's voxel coordinate advances by its step sign, `t` becomes that axis's
`t_max` (the smaller of the two), that axis's `t_max` grows by its stride,
and the pending normal is the negated step sign on that axis. -/
theorem C4_axis_selection (s : VoxelRay2Iterator) :
    (s.t_max.1 < s.t_max.2 →
      advance s = { s with
        i := ⟨s.i.x + s.step.x, s.i.y⟩
        t := s.t_max.1
        t_max := (s.t_max.1 + s.delta.1, s.t_max.2)
        norm := some ⟨-s.step.x, 0⟩ }) ∧
    (s.t_max.2 ≤ s.t_max.1 →
      advance s = { s with
        i := ⟨s.i.x, s.i.y + s.step.y⟩
        t := s.t_max.2
        t_max := (s.t_max.1, s.t_max.2 + s.delta.2)
        norm := some ⟨0, -s.step.y⟩ }) ∧
    (advance s).t = min s.t_max.1 s.t_max.2 :=
  ⟨fun h => advance_x h, fun h => advance_y (not_lt.mpr h),
   advance_t_eq_mint s⟩

/-- A concrete cursor state with an exact `t_max` tie, witnessing C4's
tie-break to the `y` axis. -/
def c4state : VoxelRay2Iterator :=
  ⟨⟨(3, 4)⟩, ((7 : ℚ) : XQ), ⟨0, 0⟩, ⟨1, 1⟩, (((1 : ℚ) : XQ), ((1 : ℚ) : XQ)),
   ⟨1, 1⟩, (((2 : ℚ) : XQ), ((2 : ℚ) : XQ)), ((0 : ℚ) : XQ), none, false⟩

theorem C4_axis_selection_w :
    advance c4state = { c4state with
      i := ⟨0, 1⟩
      t := ((2 : ℚ) : XQ)
      t_max := (((2 : ℚ) : XQ), ((2 : ℚ) : XQ) + ((1 : ℚ) : XQ))
      norm := some ⟨0, -1⟩ } :=
  (C4_axis_selection c4state).2.1 (le_refl _)

/-! ## Claim C6 -/

/-- Claim C6: if at construction the floor of the origin is not contained in
the volume and the boundary pre-clip reports no intersection, the cursor is
immediately exhausted and every subsequent pull returns no hit. -/
theorem C6_preclip_miss (volume : BoundingVolume2) (origin d : Vec2)
    (dnorm diag : ℚ) (len : XQ)
    (hcont : volume.contains_point origin.floor = false)
    (hclip : test_aabb_of_chunk volume origin d len = none) :
    (VoxelRay2Iterator.new volume origin d dnorm diag len).done = true ∧
    ∀ f, next f (VoxelRay2Iterator.new volume origin d dnorm diag len) =
      (none, VoxelRay2Iterator.new volume origin d dnorm diag len) := by
  rw [new_eval_noclip volume origin d dnorm diag len hcont hclip]
  exact ⟨rfl, fun f => next_of_done f rfl⟩

theorem C6_preclip_miss_w :
    (VoxelRay2Iterator.new ⟨(8, 8)⟩ ⟨1/2, -2⟩ ⟨3/5, -4/5⟩ 1 12
      ((100 : ℚ) : XQ)).done = true ∧
    next 5 (VoxelRay2Iterator.new ⟨(8, 8)⟩ ⟨1/2, -2⟩ ⟨3/5, -4/5⟩ 1 12
      ((100 : ℚ) : XQ)) =
      (none, VoxelRay2Iterator.new ⟨(8, 8)⟩ ⟨1/2, -2⟩ ⟨3/5, -4/5⟩ 1 12
        ((100 : ℚ) : XQ)) := by
  have hcont : (⟨(8, 8)⟩ : BoundingVolume2).contains_point
      (Vec2.floor ⟨1/2, -2⟩) = false := by
    have e : Vec2.floor ⟨1/2, -2⟩ = ⟨0, -2⟩ := by
      unfold Vec2.floor
      rw [qfloor_eq (1/2) 0 (by norm_num) (by norm_num),
        qfloor_eq (-2) (-2) (by norm_num) (by norm_num)]
    rw [e]
    decide
  have hclip : test_aabb_of_chunk ⟨(8, 8)⟩ ⟨1/2, -2⟩ ⟨3/5, -4/5⟩
      ((100 : ℚ) : XQ) = none := by
    unfold test_aabb_of_chunk
    norm_num
  have h := C6_preclip_miss ⟨(8, 8)⟩ ⟨1/2, -2⟩ ⟨3/5, -4/5⟩ 1 12
    ((100 : ℚ) : XQ) hcont hclip
  exact ⟨h.1, h.2 5⟩

/-! ## Claim C5

The spec (§4.3) describes the boundary pre-clip as: per axis, the candidate
distance to the near plane when the direction component is positive and to
the far plane otherwise; the entry distance is the maximum of the
candidates; report no intersection when it is negative or exceeds the
travel length; otherwise check the non-gating axis's coordinate of the
corresponding ray point against `[0, size]` inclusively.  The following
definitions transcribe that description; C5 proves the source function
equal to it. -/

/-- Spec-side per-axis candidate on `x`: distance to the near plane if the
direction component is positive, to the far plane otherwise. -/
def specClipCandX (v : BoundingVolume2) (frm d : Vec2) : ℚ :=
  if 0 < d.x then (0 - frm.x) / d.x else (((v.size.1 : ℤ) : ℚ) - frm.x) / d.x

/-- Spec-side per-axis candidate on `y`. -/
def specClipCandY (v : BoundingVolume2) (frm d : Vec2) : ℚ :=
  if 0 < d.y then (0 - frm.y) / d.y else (((v.size.2 : ℤ) : ℚ) - frm.y) / d.y

/-- Spec-side entry distance: the maximum of the two candidates. -/
def specClipEntry (v : BoundingVolume2) (frm d : Vec2) : ℚ :=
  max (specClipCandX v frm d) (specClipCandY v frm d)

/-- The spec's description of the boundary pre-clip (the gating axis is the
one attaining the maximum, `x` on a strict win, `y` on a tie, matching the
source's `if t[0] > t[1]`). -/
def specClip (v : BoundingVolume2) (frm d : Vec2) (len : XQ) : Option Vec2 :=
  let m := specClipEntry v frm d
  let pt : Vec2 := ⟨frm.x + d.x * m, frm.y + d.y * m⟩
  if 0 ≤ m ∧ ((m : ℚ) : XQ) ≤ len ∧
      (if specClipCandY v frm d < specClipCandX v frm d
       then 0 ≤ pt.y ∧ pt.y ≤ ((v.size.2 : ℤ) : ℚ)
       else 0 ≤ pt.x ∧ pt.x ≤ ((v.size.1 : ℤ) : ℚ))
  then some pt else none

/-- Abstract shape equivalence between the source's branch structure for the
pre-clip and the spec's maximum-based description. -/
theorem clip_shape (tx ty : ℚ) (len : XQ) (ptx pty : ℚ → ℚ) (sx sy : ℚ) :
    (if ty < tx then
       (if 0 ≤ tx ∧ ((tx : ℚ) : XQ) ≤ len then
          (if 0 ≤ pty tx ∧ pty tx ≤ sy
           then some (⟨ptx tx, pty tx⟩ : Vec2) else none)
        else none)
     else
       (if 0 ≤ ty ∧ ((ty : ℚ) : XQ) ≤ len then
          (if 0 ≤ ptx ty ∧ ptx ty ≤ sx
           then some (⟨ptx ty, pty ty⟩ : Vec2) else none)
        else none)) =
    (if 0 ≤ max tx ty ∧ ((max tx ty : ℚ) : XQ) ≤ len ∧
        (if ty < tx then 0 ≤ pty (max tx ty) ∧ pty (max tx ty) ≤ sy
         else 0 ≤ ptx (max tx ty) ∧ ptx (max tx ty) ≤ sx)
     then some (⟨ptx (max tx ty), pty (max tx ty)⟩ : Vec2) else none) := by
  by_cases hxy : ty < tx
  · rw [max_eq_left (le_of_lt hxy)]
    simp only [hxy, if_true, ite_true]
    split_ifs <;> first | rfl | tauto
  · rw [max_eq_right (not_lt.mp hxy)]
    simp only [hxy, if_false, ite_false]
    split_ifs <;> first | rfl | tauto

/-- Claim C5: the boundary pre-clip computes, per axis, the distance to the
near plane for a positive direction component and to the far plane
otherwise, gates on the maximum candidate, rejects a negative or too-large
entry distance, checks the non-gating axis inclusively against `[0, size]`,
and otherwise returns the ray point at the entry distance.  The candidate
really is the parameter at which the ray meets that axis's selected plane
(second and third conjuncts). -/
theorem preclip_eq_specClip (v : BoundingVolume2) (frm d : Vec2)
    (len : XQ) : test_aabb_of_chunk v frm d len = specClip v frm d len := by
  unfold test_aabb_of_chunk specClip specClipEntry specClipCandX
    specClipCandY
  dsimp only
  exact clip_shape _ _ len (fun m => frm.x + d.x * m)
    (fun m => frm.y + d.y * m) _ _

theorem C5_preclip_spec (v : BoundingVolume2) (frm d : Vec2) (len : XQ)
    (hdx : d.x ≠ 0) (hdy : d.y ≠ 0) :
    test_aabb_of_chunk v frm d len = specClip v frm d len ∧
    frm.x + d.x * specClipCandX v frm d =
      (if 0 < d.x then 0 else ((v.size.1 : ℤ) : ℚ)) ∧
    frm.y + d.y * specClipCandY v frm d =
      (if 0 < d.y then 0 else ((v.size.2 : ℤ) : ℚ)) := by
  refine ⟨preclip_eq_specClip v frm d len, ?_, ?_⟩
  · unfold specClipCandX
    split <;> field_simp <;> ring
  · unfold specClipCandY
    split <;> field_simp <;> ring

theorem C5_preclip_spec_w :
    test_aabb_of_chunk ⟨(3, 4)⟩ ⟨-3, -4⟩ ⟨3/5, 4/5⟩ ((100 : ℚ) : XQ) =
      some ⟨0, 0⟩ := by
  have h := (C5_preclip_spec ⟨(3, 4)⟩ ⟨-3, -4⟩ ⟨3/5, 4/5⟩ ((100 : ℚ) : XQ)
    (by norm_num) (by norm_num)).1
  rw [h]
  unfold specClip specClipEntry specClipCandX specClipCandY
  dsimp only
  norm_num
  intro hlt
  exact absurd hlt (by exact_mod_cast (by norm_num : ¬ ((100 : ℚ) < 5)))

/-! ## Claim C7 -/

/-- Claim C7: every traversal terminates: there is a bound `N` such that
after `N` pulls (each with fuel `N`) the cursor is exhausted and every
further pull returns no hit.  No hypothesis on the ray is needed: the
travel bound `max_d = min(length, t + diag + 2)` is finite even for an
infinite ray length, each finite stride is strictly positive, and a cursor
whose strides are both infinite leaves the loop on its first advance. -/
theorem C7_termination (volume : BoundingVolume2) (origin d : Vec2)
    (dnorm diag : ℚ) (len : XQ) :
    ∃ N, (pullsState N N
        (VoxelRay2Iterator.new volume origin d dnorm diag len)).done = true ∧
      ∀ f, next f (pullsState N N
          (VoxelRay2Iterator.new volume origin d dnorm diag len)) =
        (none, pullsState N N
          (VoxelRay2Iterator.new volume origin d dnorm diag len)) :=
  new_terminates volume origin d dnorm diag len

/-! ## Claim C9 -/

/-- Claim C9: a volume with a non-positive extent on some axis contains no
point, every pull over such a volume returns no hit, and the traversal of
such a volume still terminates. -/
theorem C9_degenerate (v : BoundingVolume2)
    (hdeg : v.size.1 ≤ 0 ∨ v.size.2 ≤ 0) :
    (∀ p, v.contains_point p = false) ∧
    (∀ f s, s.volume = v → (next f s).1 = none) ∧
    (∀ (origin d : Vec2) (dnorm diag : ℚ) (len : XQ), ∃ N,
      (pullsState N N
        (VoxelRay2Iterator.new v origin d dnorm diag len)).done = true) := by
  have hfalse : ∀ p, v.contains_point p = false := by
    intro p
    cases hc : v.contains_point p with
    | false => rfl
    | true =>
      obtain ⟨h1, h2, h3, h4⟩ := (contains_point_iff _ _).mp hc
      rcases hdeg with hd | hd <;> omega
  have key : ∀ f s, s.volume = v → (nextAux f s).1 = none := by
    intro f
    induction f with
    | zero => intro s _; rfl
    | succ f ih =>
      intro s hv
      by_cases h1 : s.t ≤ s.max_d
      · have hh : hitOf s = none := hitOf_out (by rw [hv]; exact hfalse s.i)
        rw [nextAux_skip f h1 hh]
        exact ih (advance s) (by rw [advance_volume, hv])
      · rw [nextAux_exit f h1]
  refine ⟨hfalse, ?_, ?_⟩
  · intro f s hv
    by_cases hd : s.done
    · rw [next_of_done f hd]
    · rw [next_of_not_done f (Bool.not_eq_true _ ▸ hd)]
      exact key f s hv
  · intro origin d dnorm diag len
    obtain ⟨N, h1, -⟩ := new_terminates v origin d dnorm diag len
    exact ⟨N, h1⟩

/-- A concrete cursor over a zero-width volume, used to witness C9. -/
def c9state : VoxelRay2Iterator :=
  ⟨⟨(0, 5)⟩, ((0 : ℚ) : XQ), ⟨0, 0⟩, ⟨1, 1⟩, (((1 : ℚ) : XQ), ((1 : ℚ) : XQ)),
   ⟨0, 0⟩, (((0 : ℚ) : XQ), ((0 : ℚ) : XQ)), ((0 : ℚ) : XQ), none, false⟩

theorem C9_degenerate_w :
    (⟨(0, 5)⟩ : BoundingVolume2).contains_point ⟨0, 0⟩ = false ∧
    (next 3 c9state).1 = none := by
  have h := C9_degenerate ⟨(0, 5)⟩ (Or.inl (by norm_num))
  exact ⟨h.1 ⟨0, 0⟩, h.2.1 3 c9state rfl⟩

/-! ## Claim C3 -/

theorem deltaOf_nonneg (c : ℚ) : (0 : XQ) ≤ deltaOf c := by
  unfold deltaOf
  split
  · exact le_top
  · rw [← WithTop.coe_zero, WithTop.coe_le_coe]
    exact abs_nonneg _

theorem mkIter_invT (volume : BoundingVolume2) (p d : Vec2) (t : ℚ)
    (len : XQ) (diag : ℚ) (ht : t ≤ 0) :
    InvT (mkIter volume p d t len diag) := by
  obtain ⟨hx, hy⟩ := mkIter_dist_nonneg volume p d t len diag
  have h0 : ((t : ℚ) : XQ) ≤ ((0 : ℚ) : XQ) := WithTop.coe_le_coe.mpr ht
  refine ⟨?_, ?_, ?_, ?_⟩
  · exact le_trans h0 (tmaxOf_deltaOf_nonneg d.x _ hx)
  · exact le_trans h0 (tmaxOf_deltaOf_nonneg d.y _ hy)
  · exact deltaOf_nonneg d.x
  · exact deltaOf_nonneg d.y

/-- Claim C3: across a single traversal, emitted distances are
non-decreasing.  The construction establishes the invariant `InvT` (with
the true `dnorm = 1` of a normalized direction), every successful pull
preserves it, and under it two hits returned by consecutive pulls have
non-decreasing `distance` fields. -/
theorem C3_monotone_distance :
    (∀ (volume : BoundingVolume2) (origin d : Vec2) (diag : ℚ) (len : XQ),
      InvT (VoxelRay2Iterator.new volume origin d 1 diag len)) ∧
    (∀ (s : VoxelRay2Iterator) (f : ℕ) (h : Ray2hit)
      (s' : VoxelRay2Iterator), InvT s → next f s = (some h, s') →
      InvT s') ∧
    (∀ (s : VoxelRay2Iterator) (f f' : ℕ) (h₁ : Ray2hit)
      (s₁ : VoxelRay2Iterator) (h₂ : Ray2hit) (s₂ : VoxelRay2Iterator),
      InvT s → next f s = (some h₁, s₁) → next f' s₁ = (some h₂, s₂) →
      h₁.distance ≤ h₂.distance) := by
  refine ⟨?_, ?_, ?_⟩
  · intro volume origin d diag len
    unfold VoxelRay2Iterator.new
    split
    · exact mkIter_invT volume origin d 0 len diag (le_refl 0)
    · split
      · exact ⟨le_refl _, le_refl _, le_refl _, le_refl _⟩
      · exact mkIter_invT volume _ d _ len diag (by norm_num)
  · intro s f h s' hInv H
    obtain ⟨-, j, -, hs, -, -, -⟩ := next_some H
    rw [hs, ← Function.iterate_succ_apply' advance j s]
    exact invT_iter hInv (j + 1)
  · intro s f f' h₁ s₁ h₂ s₂ hInv H1 H2
    obtain ⟨-, j, -, hs1, hhit1, -, -⟩ := next_some H1
    obtain ⟨-, j', -, -, hhit2, -, -⟩ := next_some H2
    obtain ⟨-, he1⟩ := hitOf_some_elim hhit1
    obtain ⟨-, he2⟩ := hitOf_some_elim hhit2
    subst he1 he2
    dsimp only
    subst hs1
    rw [← Function.iterate_succ_apply' advance j s,
      ← Function.iterate_add_apply advance j' (j + 1) s]
    exact iter_t_mono hInv (by omega)

/-- A traversal cursor freshly constructed inside volume `(3,4)` at origin
`(1/2, 1/2)` with direction `(3/5, 4/5)`. -/
def mdemo0 : VoxelRay2Iterator :=
  ⟨⟨(3, 4)⟩, ((7 : ℚ) : XQ), ⟨0, 0⟩, ⟨1, 1⟩,
   (((5/3 : ℚ) : XQ), ((5/4 : ℚ) : XQ)), ⟨1/2, 1/2⟩,
   (((5/6 : ℚ) : XQ), ((5/8 : ℚ) : XQ)), ((0 : ℚ) : XQ), none, false⟩

/-- The state after one advance of `mdemo0` (the `y` axis is selected since
`5/8 < 5/6`). -/
def mdemo1 : VoxelRay2Iterator :=
  ⟨⟨(3, 4)⟩, ((7 : ℚ) : XQ), ⟨0, 1⟩, ⟨1, 1⟩,
   (((5/3 : ℚ) : XQ), ((5/4 : ℚ) : XQ)), ⟨1/2, 1/2⟩,
   (((5/6 : ℚ) : XQ), ((5/8 : ℚ) : XQ) + ((5/4 : ℚ) : XQ)),
   ((5/8 : ℚ) : XQ), some ⟨0, -1⟩, false⟩

theorem mdemo0_eval :
    VoxelRay2Iterator.new ⟨(3, 4)⟩ ⟨1/2, 1/2⟩ ⟨3/5, 4/5⟩ 1 5
      ((100 : ℚ) : XQ) = mdemo0 := by
  have hf : (⌊(1/2 : ℚ)⌋ : ℤ) = 0 := qfloor_eq _ _ (by norm_num) (by norm_num)
  have hcont : (⟨(3, 4)⟩ : BoundingVolume2).contains_point
      (Vec2.floor ⟨1/2, 1/2⟩) = true := by
    unfold Vec2.floor
    dsimp only
    rw [hf]
    decide
  rw [new_eval_inside _ _ _ _ _ _ hcont,
    mkIter_eval_pp _ _ _ _ _ _ (by norm_num) (by norm_num)
      (by norm_num [eps]) (by norm_num [eps])]
  unfold mdemo0
  dsimp only
  rw [hf]
  simp only [VoxelRay2Iterator.mk.injEq, Prod.mk.injEq, Vec2.mk.injEq,
    IVec2.mk.injEq, ← WithTop.coe_min, WithTop.coe_eq_coe]
  norm_num [min_def]

theorem mdemo_adv : advance mdemo0 = mdemo1 := by
  rw [advance_y (by
    intro hlt
    rw [show mdemo0.t_max.1 = ((5/6 : ℚ) : XQ) from rfl,
      show mdemo0.t_max.2 = ((5/8 : ℚ) : XQ) from rfl,
      WithTop.coe_lt_coe] at hlt
    norm_num at hlt)]
  rfl

theorem mdemo_pull1 :
    next 2 mdemo0 = (some ⟨((0 : ℚ) : XQ), ⟨0, 0⟩, none⟩, mdemo1) := by
  have hcond : mdemo0.t ≤ mdemo0.max_d := WithTop.coe_le_coe.mpr (by norm_num)
  have hh : hitOf mdemo0 = some ⟨((0 : ℚ) : XQ), ⟨0, 0⟩, none⟩ :=
    hitOf_in (by decide)
  rw [next_of_not_done 2 rfl, nextAux_emit 1 hcond hh, mdemo_adv]

theorem mdemo_pull2 :
    next 2 mdemo1 =
      (some ⟨((5/8 : ℚ) : XQ), ⟨0, 1⟩, some ⟨0, -1⟩⟩, advance mdemo1) := by
  have hcond : mdemo1.t ≤ mdemo1.max_d := WithTop.coe_le_coe.mpr (by norm_num)
  have hh : hitOf mdemo1 = some ⟨((5/8 : ℚ) : XQ), ⟨0, 1⟩, some ⟨0, -1⟩⟩ :=
    hitOf_in (by decide)
  rw [next_of_not_done 2 rfl, nextAux_emit 1 hcond hh]

theorem mdemo0_invT : InvT mdemo0 :=
  ⟨WithTop.coe_le_coe.mpr (by norm_num), WithTop.coe_le_coe.mpr (by norm_num),
   by rw [← WithTop.coe_zero]; exact WithTop.coe_le_coe.mpr (by norm_num),
   by rw [← WithTop.coe_zero]; exact WithTop.coe_le_coe.mpr (by norm_num)⟩

theorem C3_monotone_distance_w :
    (⟨((0 : ℚ) : XQ), ⟨0, 0⟩, none⟩ : Ray2hit).distance ≤
      (⟨((5/8 : ℚ) : XQ), ⟨0, 1⟩, some ⟨0, -1⟩⟩ : Ray2hit).distance :=
  C3_monotone_distance.2.2 mdemo0 2 2 _ mdemo1 _ (advance mdemo1)
    mdemo0_invT mdemo_pull1 mdemo_pull2

/-! ## Where the pre-clip can return a point, and where the backed-off
starting point lands -/

theorem preclip_some_elim {v : BoundingVolume2} {o d : Vec2} {len : XQ}
    {pt : Vec2} (hclip : test_aabb_of_chunk v o d len = some pt) :
    pt = ⟨o.x + d.x * specClipEntry v o d,
          o.y + d.y * specClipEntry v o d⟩ := by
  rw [preclip_eq_specClip] at hclip
  unfold specClip at hclip
  dsimp only at hclip
  split_ifs at hclip
  all_goals exact (Option.some_injective _ hclip).symm

theorem contains_false_x_low (v : BoundingVolume2) (p : Vec2)
    (h : p.x < 0) : v.contains_point p.floor = false := by
  cases hc : v.contains_point p.floor with
  | false => rfl
  | true =>
    obtain ⟨h1, -, -, -⟩ := (contains_point_iff _ _).mp hc
    rw [Vec2.floor] at h1
    have := (Int.le_floor (z := 0)).mp h1
    norm_num at this
    linarith

theorem contains_false_x_high (v : BoundingVolume2) (p : Vec2)
    (h : ((v.size.1 : ℤ) : ℚ) ≤ p.x) : v.contains_point p.floor = false := by
  cases hc : v.contains_point p.floor with
  | false => rfl
  | true =>
    obtain ⟨-, -, h3, -⟩ := (contains_point_iff _ _).mp hc
    rw [Vec2.floor] at h3
    have := Int.floor_lt.mp h3
    linarith

theorem contains_false_y_low (v : BoundingVolume2) (p : Vec2)
    (h : p.y < 0) : v.contains_point p.floor = false := by
  cases hc : v.contains_point p.floor with
  | false => rfl
  | true =>
    obtain ⟨-, h2, -, -⟩ := (contains_point_iff _ _).mp hc
    rw [Vec2.floor] at h2
    have := (Int.le_floor (z := 0)).mp h2
    norm_num at this
    linarith

theorem contains_false_y_high (v : BoundingVolume2) (p : Vec2)
    (h : ((v.size.2 : ℤ) : ℚ) ≤ p.y) : v.contains_point p.floor = false := by
  cases hc : v.contains_point p.floor with
  | false => rfl
  | true =>
    obtain ⟨-, -, -, h4⟩ := (contains_point_iff _ _).mp hc
    rw [Vec2.floor] at h4
    have := Int.floor_lt.mp h4
    linarith

/-- After a successful pre-clip, backing the intersection point off by two
voxel widths along the direction lands in a voxel outside the volume: the
axis whose candidate attains the entry maximum sits exactly on its entry
plane, so the backed-off point is strictly outside on that axis. -/
theorem preclip_backoff_outside {v : BoundingVolume2} {o d : Vec2}
    {len : XQ} {pt : Vec2} (hdx : d.x ≠ 0) (hdy : d.y ≠ 0)
    (hclip : test_aabb_of_chunk v o d len = some pt) :
    v.contains_point (Vec2.floor ⟨pt.x - d.x * 2, pt.y - d.y * 2⟩) = false := by
  obtain rfl := preclip_some_elim hclip
  dsimp only
  rcases max_choice (specClipCandX v o d) (specClipCandY v o d) with hm | hm
  · have hme : specClipEntry v o d = specClipCandX v o d := hm
    by_cases hsx : 0 < d.x
    · refine contains_false_x_low v _ ?_
      dsimp only
      rw [hme]
      unfold specClipCandX
      rw [if_pos hsx]
      have he : o.x + d.x * ((0 - o.x) / d.x) = 0 := by field_simp <;> ring
      linarith
    · have hsx' : d.x < 0 := lt_of_le_of_ne (not_lt.mp hsx) hdx
      refine contains_false_x_high v _ ?_
      dsimp only
      rw [hme]
      unfold specClipCandX
      rw [if_neg hsx]
      have he : o.x + d.x * ((((v.size.1 : ℤ) : ℚ) - o.x) / d.x) =
          ((v.size.1 : ℤ) : ℚ) := by field_simp
      linarith
  · have hme : specClipEntry v o d = specClipCandY v o d := hm
    by_cases hsy : 0 < d.y
    · refine contains_false_y_low v _ ?_
      dsimp only
      rw [hme]
      unfold specClipCandY
      rw [if_pos hsy]
      have he : o.y + d.y * ((0 - o.y) / d.y) = 0 := by field_simp <;> ring
      linarith
    · have hsy' : d.y < 0 := lt_of_le_of_ne (not_lt.mp hsy) hdy
      refine contains_false_y_high v _ ?_
      dsimp only
      rw [hme]
      unfold specClipCandY
      rw [if_neg hsy]
      have he : o.y + d.y * ((((v.size.2 : ℤ) : ℚ) - o.y) / d.y) =
          ((v.size.2 : ℤ) : ℚ) := by field_simp
      linarith

/-! ## Claim C8 -/

/-- A cursor whose pending normal can only be absent while the current
voxel is outside the volume: such a cursor never emits a hit without a
normal. -/
def JNorm (s : VoxelRay2Iterator) : Prop :=
  s.norm = none → s.volume.contains_point s.i = false

/-- Claim C8: the entry normal is absent only for the first emitted hit and
only when the starting voxel was contained at construction (first
conjunct: the first pull of an inside-start traversal yields the origin
voxel at distance zero with no normal); when the start is outside the
volume the constructed cursor satisfies `JNorm` (second conjunct), every
hit pulled from a `JNorm` cursor carries a present normal and leaves a
cursor whose pending normal is present (third conjunct); and the normal
written by an advance is the negated step sign on the stepped axis and
zero on the other (fourth conjunct). -/
theorem C8_normal_placement :
    (∀ (volume : BoundingVolume2) (origin d : Vec2) (dnorm diag : ℚ)
      (len : XQ), volume.contains_point origin.floor = true →
      ((0 : ℚ) : XQ) ≤ len → 0 ≤ diag → ∀ f, 1 ≤ f →
      (next f (VoxelRay2Iterator.new volume origin d dnorm diag len)).1 =
        some ⟨((0 : ℚ) : XQ), origin.floor, none⟩) ∧
    (∀ (volume : BoundingVolume2) (origin d : Vec2) (dnorm diag : ℚ)
      (len : XQ), volume.contains_point origin.floor = false →
      d.x ≠ 0 → d.y ≠ 0 →
      JNorm (VoxelRay2Iterator.new volume origin d dnorm diag len)) ∧
    (∀ (s : VoxelRay2Iterator) (f : ℕ) (h : Ray2hit)
      (s' : VoxelRay2Iterator), JNorm s → next f s = (some h, s') →
      h.normal ≠ none ∧ s'.norm ≠ none) ∧
    (∀ s : VoxelRay2Iterator,
      (s.t_max.1 < s.t_max.2 → (advance s).norm = some ⟨-s.step.x, 0⟩) ∧
      (s.t_max.2 ≤ s.t_max.1 → (advance s).norm = some ⟨0, -s.step.y⟩)) := by
  refine ⟨?_, ?_, ?_, ?_⟩
  · intro volume origin d dnorm diag len hcont hlen hdiag f hf
    rw [new_eval_inside volume origin d dnorm diag len hcont]
    obtain ⟨k, rfl⟩ : ∃ k, f = k + 1 := ⟨f - 1, by omega⟩
    have hcond : (mkIter volume origin d 0 len diag).t ≤
        (mkIter volume origin d 0 len diag).max_d := by
      refine le_min hlen ?_
      show ((0 : ℚ) : XQ) ≤ ((0 + diag + 2 : ℚ) : XQ)
      rw [WithTop.coe_le_coe]
      linarith
    have hh : hitOf (mkIter volume origin d 0 len diag) =
        some ⟨((0 : ℚ) : XQ), origin.floor, none⟩ := hitOf_in hcont
    rw [next_of_not_done _ rfl, nextAux_emit k hcond hh]
  · intro volume origin d dnorm diag len hcont hdx hdy
    cases hclip : test_aabb_of_chunk volume origin d len with
    | none =>
      rw [new_eval_noclip volume origin d dnorm diag len hcont hclip]
      intro _
      decide
    | some aabb =>
      rw [new_eval_clip volume origin d dnorm diag len aabb hcont hclip]
      intro _
      exact preclip_backoff_outside hdx hdy hclip
  · intro s f h s' hJ H
    obtain ⟨-, j, -, hs, hhit, -, -⟩ := next_some H
    obtain ⟨hc, he⟩ := hitOf_some_elim hhit
    constructor
    · subst he
      dsimp only
      cases j with
      | zero =>
        rw [Function.iterate_zero_apply] at hc ⊢
        intro hn
        rw [hJ hn] at hc
        cases hc
      | succ m =>
        rw [Function.iterate_succ_apply']
        rcases advance_norm (advance^[m] s) with ha | ha <;> rw [ha] <;>
          exact Option.noConfusion
    · rw [hs]
      rcases advance_norm (advance^[j] s) with ha | ha <;> rw [ha] <;>
        exact Option.noConfusion
  · intro s
    constructor
    · intro hlt
      rw [advance_x hlt]
    · intro hle
      rw [advance_y (not_lt.mpr hle)]

/-- Direct evaluation of the pre-clip on the concrete outside-start
configuration used by several witnesses: the ray from `(-3, -4)` along
`(3/5, 4/5)` enters volume `(3, 4)` at the corner `(0, 0)`. -/
theorem clipdemo :
    test_aabb_of_chunk ⟨(3, 4)⟩ ⟨-3, -4⟩ ⟨3/5, 4/5⟩ ((100 : ℚ) : XQ) =
      some ⟨0, 0⟩ := by
  unfold test_aabb_of_chunk
  dsimp only
  norm_num
  intro hlt
  exact absurd hlt (by exact_mod_cast (by norm_num : ¬ ((100 : ℚ) < 5)))

/-- `⌊-3⌋, ⌊-4⌋`: the origin voxel of the concrete outside-start
configuration, shown not to be contained. -/
theorem clipdemo_outside :
    (⟨(3, 4)⟩ : BoundingVolume2).contains_point
      (Vec2.floor ⟨-3, -4⟩) = false := by
  have e : Vec2.floor ⟨-3, -4⟩ = ⟨-3, -4⟩ := by
    unfold Vec2.floor
    rw [qfloor_eq (-3) (-3) (by norm_num) (by norm_num),
      qfloor_eq (-4) (-4) (by norm_num) (by norm_num)]
  rw [e]
  decide

theorem C8_normal_placement_w :
    (next 1 (VoxelRay2Iterator.new ⟨(3, 4)⟩ ⟨1/2, 1/2⟩ ⟨3/5, 4/5⟩ 1 5
        ((100 : ℚ) : XQ))).1 =
      some ⟨((0 : ℚ) : XQ), ⟨0, 0⟩, none⟩ ∧
    (VoxelRay2Iterator.new ⟨(3, 4)⟩ ⟨-3, -4⟩ ⟨3/5, 4/5⟩ 1 5
        ((100 : ℚ) : XQ)).volume.contains_point
      (VoxelRay2Iterator.new ⟨(3, 4)⟩ ⟨-3, -4⟩ ⟨3/5, 4/5⟩ 1 5
        ((100 : ℚ) : XQ)).i = false := by
  constructor
  · have hf : (⌊(1/2 : ℚ)⌋ : ℤ) = 0 :=
      qfloor_eq _ _ (by norm_num) (by norm_num)
    have hfl : Vec2.floor ⟨(1/2 : ℚ), (1/2 : ℚ)⟩ = ⟨0, 0⟩ := by
      unfold Vec2.floor
      rw [hf]
    have h1 := C8_normal_placement.1 ⟨(3, 4)⟩ ⟨1/2, 1/2⟩ ⟨3/5, 4/5⟩ 1 5
      ((100 : ℚ) : XQ) (by rw [hfl]; decide)
      (WithTop.coe_le_coe.mpr (by norm_num)) (by norm_num) 1 (le_refl 1)
    rw [h1, hfl]
  · have h2 := C8_normal_placement.2.1 ⟨(3, 4)⟩ ⟨-3, -4⟩ ⟨3/5, 4/5⟩ 1 5
      ((100 : ℚ) : XQ) clipdemo_outside (by norm_num) (by norm_num)
    refine h2 ?_
    rw [new_eval_clip ⟨(3, 4)⟩ ⟨-3, -4⟩ ⟨3/5, 4/5⟩ 1 5 ((100 : ℚ) : XQ)
      ⟨0, 0⟩ clipdemo_outside clipdemo]
    rfl

/-! ## Claim C10 -/

/-- Both step signs are unit (`±1`), as produced by `signum`. -/
def StepOK (s : VoxelRay2Iterator) : Prop :=
  (s.step.x = 1 ∨ s.step.x = -1) ∧ (s.step.y = 1 ∨ s.step.y = -1)

theorem qsignum_cases (q : ℚ) : qsignum q = 1 ∨ qsignum q = -1 := by
  unfold qsignum
  split
  · exact Or.inr rfl
  · exact Or.inl rfl

theorem mkIter_stepOK (volume : BoundingVolume2) (p d : Vec2) (t : ℚ)
    (len : XQ) (diag : ℚ) : StepOK (mkIter volume p d t len diag) :=
  ⟨qsignum_cases d.x, qsignum_cases d.y⟩

theorem advance_i_x (s : VoxelRay2Iterator) :
    (advance s).i.x = s.i.x + s.step.x ∨ (advance s).i.x = s.i.x := by
  unfold advance
  split
  · exact Or.inl rfl
  · exact Or.inr rfl

theorem advance_i_y (s : VoxelRay2Iterator) :
    (advance s).i.y = s.i.y + s.step.y ∨ (advance s).i.y = s.i.y := by
  unfold advance
  split
  · exact Or.inr rfl
  · exact Or.inl rfl

theorem advance_i (s : VoxelRay2Iterator) :
    (advance s).i = ⟨s.i.x + s.step.x, s.i.y⟩ ∨
    (advance s).i = ⟨s.i.x, s.i.y + s.step.y⟩ := by
  unfold advance
  split
  · exact Or.inl rfl
  · exact Or.inr rfl

/-- Each voxel coordinate moves monotonically (in the direction of its step
sign), so any intermediate voxel's coordinate lies between the endpoints'. -/
theorem iter_between_x (s : VoxelRay2Iterator) (k K : ℕ) (hk : k ≤ K) :
    min s.i.x (advance^[K] s).i.x ≤ (advance^[k] s).i.x ∧
    (advance^[k] s).i.x ≤ max s.i.x (advance^[K] s).i.x := by
  rcases le_total 0 s.step.x with hs | hs
  · have mono : Monotone (fun m => (advance^[m] s).i.x) := by
      refine monotone_nat_of_le_succ ?_
      intro m
      rw [Function.iterate_succ_apply']
      rcases advance_i_x (advance^[m] s) with h | h <;> rw [h]
      all_goals rw [iter_step s m]; omega
    exact ⟨le_trans (min_le_left _ _) (mono (Nat.zero_le k)),
      le_trans (mono hk) (le_max_right _ _)⟩
  · have anti : Antitone (fun m => (advance^[m] s).i.x) := by
      refine antitone_nat_of_succ_le ?_
      intro m
      rw [Function.iterate_succ_apply']
      rcases advance_i_x (advance^[m] s) with h | h <;> rw [h]
      all_goals rw [iter_step s m]; omega
    exact ⟨le_trans (min_le_right _ _) (anti hk),
      le_trans (anti (Nat.zero_le k)) (le_max_left _ _)⟩

theorem iter_between_y (s : VoxelRay2Iterator) (k K : ℕ) (hk : k ≤ K) :
    min s.i.y (advance^[K] s).i.y ≤ (advance^[k] s).i.y ∧
    (advance^[k] s).i.y ≤ max s.i.y (advance^[K] s).i.y := by
  rcases le_total 0 s.step.y with hs | hs
  · have mono : Monotone (fun m => (advance^[m] s).i.y) := by
      refine monotone_nat_of_le_succ ?_
      intro m
      rw [Function.iterate_succ_apply']
      rcases advance_i_y (advance^[m] s) with h | h <;> rw [h]
      all_goals rw [iter_step s m]; omega
    exact ⟨le_trans (min_le_left _ _) (mono (Nat.zero_le k)),
      le_trans (mono hk) (le_max_right _ _)⟩
  · have anti : Antitone (fun m => (advance^[m] s).i.y) := by
      refine antitone_nat_of_succ_le ?_
      intro m
      rw [Function.iterate_succ_apply']
      rcases advance_i_y (advance^[m] s) with h | h <;> rw [h]
      all_goals rw [iter_step s m]; omega
    exact ⟨le_trans (min_le_right _ _) (anti hk),
      le_trans (anti (Nat.zero_le k)) (le_max_left _ _)⟩

/-- Claim C10: two consecutively emitted hit records have voxel coordinates
that differ on exactly one axis, by exactly that axis's step sign (of
absolute value 1): the emitted voxels form a face-adjacent chain with no
contained voxel skipped in between. -/
theorem C10_face_adjacent :
    (∀ (volume : BoundingVolume2) (origin d : Vec2) (dnorm diag : ℚ)
      (len : XQ),
      (VoxelRay2Iterator.new volume origin d dnorm diag len).done = true ∨
      StepOK (VoxelRay2Iterator.new volume origin d dnorm diag len)) ∧
    (∀ (s : VoxelRay2Iterator) (f f' : ℕ) (h₁ : Ray2hit)
      (s₁ : VoxelRay2Iterator) (h₂ : Ray2hit) (s₂ : VoxelRay2Iterator),
      StepOK s → next f s = (some h₁, s₁) → next f' s₁ = (some h₂, s₂) →
      ((h₂.voxel.x = h₁.voxel.x + s.step.x ∧ h₂.voxel.y = h₁.voxel.y) ∨
       (h₂.voxel.x = h₁.voxel.x ∧ h₂.voxel.y = h₁.voxel.y + s.step.y)) ∧
      |h₂.voxel.x - h₁.voxel.x| + |h₂.voxel.y - h₁.voxel.y| = 1) := by
  constructor
  · intro volume origin d dnorm diag len
    unfold VoxelRay2Iterator.new
    split
    · exact Or.inr (mkIter_stepOK volume origin d 0 len diag)
    · split
      · exact Or.inl rfl
      · exact Or.inr (mkIter_stepOK volume _ d _ len diag)
  · intro s f f' h₁ s₁ h₂ s₂ hstep H1 H2
    obtain ⟨-, j, -, hs1, hhit1, -, -⟩ := next_some H1
    obtain ⟨-, j', -, -, hhit2, -, hnone2⟩ := next_some H2
    obtain ⟨hc1, he1⟩ := hitOf_some_elim hhit1
    obtain ⟨hc2, he2⟩ := hitOf_some_elim hhit2
    subst he1 he2
    dsimp only
    subst hs1
    have hbstep : (advance^[j] s).step = s.step := iter_step s j
    have hkey : j' = 0 := by
      by_contra hj'
      have h0 : (0 : ℕ) < j' := Nat.pos_of_ne_zero hj'
      have hcv := hitOf_none_elim (hnone2 0 h0)
      rw [Function.iterate_zero_apply] at hcv
      -- the voxel entered right after the first hit: its coordinates lie
      -- between those of the two emitted (contained) voxels
      rw [iter_volume] at hc1 hc2
      rw [advance_volume] at hc2 hcv
      rw [iter_volume] at hc2 hcv
      obtain ⟨ha1, ha2, ha3, ha4⟩ := (contains_point_iff _ _).mp hc1
      obtain ⟨hb1, hb2, hb3, hb4⟩ := (contains_point_iff _ _).mp hc2
      have e2 : advance^[j'] (advance (advance^[j] s)) =
          advance^[j' + 1] (advance^[j] s) := by
        rw [Function.iterate_succ_apply]
      rw [e2] at hb1 hb2 hb3 hb4
      have hbx := iter_between_x (advance^[j] s) 1 (j' + 1) (by omega)
      have hby := iter_between_y (advance^[j] s) 1 (j' + 1) (by omega)
      rw [Function.iterate_one] at hbx hby
      have hct : s.volume.contains_point
          (advance (advance^[j] s)).i = true := by
        refine (contains_point_iff _ _).mpr ⟨?_, ?_, ?_, ?_⟩
        · refine le_trans ?_ hbx.1
          exact le_min ha1 hb1
        · refine le_trans ?_ hby.1
          exact le_min ha2 hb2
        · refine lt_of_le_of_lt hbx.2 ?_
          exact max_lt ha3 hb3
        · refine lt_of_le_of_lt hby.2 ?_
          exact max_lt ha4 hb4
      rw [hct] at hcv
      cases hcv
    subst hkey
    rw [Function.iterate_zero_apply]
    have hadv := advance_i (advance^[j] s)
    rw [hbstep] at hadv
    rcases hadv with hv | hv <;> rw [hv]
    · refine ⟨Or.inl ⟨rfl, rfl⟩, ?_⟩
      dsimp only
      rcases hstep.1 with h | h <;> rw [h] <;> norm_num
    · refine ⟨Or.inr ⟨rfl, rfl⟩, ?_⟩
      dsimp only
      rcases hstep.2 with h | h <;> rw [h] <;> norm_num

theorem C10_face_adjacent_w :
    (((0 : ℤ) = 0 + 1 ∧ (1 : ℤ) = 0) ∨
      ((0 : ℤ) = 0 ∧ (1 : ℤ) = 0 + 1)) ∧
    |(0 : ℤ) - 0| + |(1 : ℤ) - 0| = 1 :=
  C10_face_adjacent.2 mdemo0 2 2 _ mdemo1 _ (advance mdemo1)
    ⟨Or.inl rfl, Or.inl rfl⟩ mdemo_pull1 mdemo_pull2

/-! ## Claim C1

The concrete pre-clipped traversal: volume `(3, 4)` (diagonal exactly 5),
ray origin `(-3, -4)`, unit direction `(3/5, 4/5)`, length 100.  The
pre-clip returns the entry corner `(0, 0)` at ray parameter 5; the source
backs off to `p = (-6/5, -8/5)` and then executes
`t += (p - aabb).length() - 2.0`, which adds `2 * 1 - 2 = 0`; the states
`cb0`, `cb1`, `cb2`, `cb3`, `cb4` below follow the stepping loop to the first
contained voxel. -/

def cb0 : VoxelRay2Iterator :=
  ⟨⟨(3, 4)⟩, ((7 : ℚ) : XQ), ⟨-2, -2⟩, ⟨1, 1⟩,
   (((5/3 : ℚ) : XQ), ((5/4 : ℚ) : XQ)), ⟨1/5, 3/5⟩,
   (((1/3 : ℚ) : XQ), ((3/4 : ℚ) : XQ)), ((0 : ℚ) : XQ), none, false⟩

def cb1 : VoxelRay2Iterator :=
  ⟨⟨(3, 4)⟩, ((7 : ℚ) : XQ), ⟨-1, -2⟩, ⟨1, 1⟩,
   (((5/3 : ℚ) : XQ), ((5/4 : ℚ) : XQ)), ⟨1/5, 3/5⟩,
   (((2 : ℚ) : XQ), ((3/4 : ℚ) : XQ)), ((1/3 : ℚ) : XQ),
   some ⟨-1, 0⟩, false⟩

def cb2 : VoxelRay2Iterator :=
  ⟨⟨(3, 4)⟩, ((7 : ℚ) : XQ), ⟨-1, -1⟩, ⟨1, 1⟩,
   (((5/3 : ℚ) : XQ), ((5/4 : ℚ) : XQ)), ⟨1/5, 3/5⟩,
   (((2 : ℚ) : XQ), ((2 : ℚ) : XQ)), ((3/4 : ℚ) : XQ),
   some ⟨0, -1⟩, false⟩

def cb3 : VoxelRay2Iterator :=
  ⟨⟨(3, 4)⟩, ((7 : ℚ) : XQ), ⟨-1, 0⟩, ⟨1, 1⟩,
   (((5/3 : ℚ) : XQ), ((5/4 : ℚ) : XQ)), ⟨1/5, 3/5⟩,
   (((2 : ℚ) : XQ), ((13/4 : ℚ) : XQ)), ((2 : ℚ) : XQ),
   some ⟨0, -1⟩, false⟩

def cb4 : VoxelRay2Iterator :=
  ⟨⟨(3, 4)⟩, ((7 : ℚ) : XQ), ⟨0, 0⟩, ⟨1, 1⟩,
   (((5/3 : ℚ) : XQ), ((5/4 : ℚ) : XQ)), ⟨1/5, 3/5⟩,
   (((11/3 : ℚ) : XQ), ((13/4 : ℚ) : XQ)), ((2 : ℚ) : XQ),
   some ⟨-1, 0⟩, false⟩

theorem cb0_eval :
    VoxelRay2Iterator.new ⟨(3, 4)⟩ ⟨-3, -4⟩ ⟨3/5, 4/5⟩ 1 5
      ((100 : ℚ) : XQ) = cb0 := by
  rw [new_eval_clip ⟨(3, 4)⟩ ⟨-3, -4⟩ ⟨3/5, 4/5⟩ 1 5 ((100 : ℚ) : XQ)
      ⟨0, 0⟩ clipdemo_outside clipdemo,
    mkIter_eval_pp _ _ _ _ _ _ (by norm_num) (by norm_num)
      (by norm_num [eps]) (by norm_num [eps])]
  unfold cb0
  dsimp only
  rw [qfloor_eq (0 - 3/5 * 2) (-2) (by norm_num) (by norm_num),
    qfloor_eq (0 - 4/5 * 2) (-2) (by norm_num) (by norm_num)]
  simp only [VoxelRay2Iterator.mk.injEq, Prod.mk.injEq, Vec2.mk.injEq,
    IVec2.mk.injEq, ← WithTop.coe_min, WithTop.coe_eq_coe]
  norm_num [min_def]

theorem cb_adv0 : advance cb0 = cb1 := by
  rw [advance_x (by
    rw [show cb0.t_max.1 = ((1/3 : ℚ) : XQ) from rfl,
      show cb0.t_max.2 = ((3/4 : ℚ) : XQ) from rfl, WithTop.coe_lt_coe]
    norm_num)]
  simp only [cb0, cb1, VoxelRay2Iterator.mk.injEq, Prod.mk.injEq,
    IVec2.mk.injEq, ← WithTop.coe_add, WithTop.coe_eq_coe]
  norm_num

theorem cb_adv1 : advance cb1 = cb2 := by
  rw [advance_y (by
    rw [show cb1.t_max.1 = ((2 : ℚ) : XQ) from rfl,
      show cb1.t_max.2 = ((3/4 : ℚ) : XQ) from rfl, WithTop.coe_lt_coe]
    norm_num)]
  simp only [cb1, cb2, VoxelRay2Iterator.mk.injEq, Prod.mk.injEq,
    IVec2.mk.injEq, ← WithTop.coe_add, WithTop.coe_eq_coe]
  norm_num

theorem cb_adv2 : advance cb2 = cb3 := by
  rw [advance_y (by
    rw [show cb2.t_max.1 = ((2 : ℚ) : XQ) from rfl,
      show cb2.t_max.2 = ((2 : ℚ) : XQ) from rfl, WithTop.coe_lt_coe]
    norm_num)]
  simp only [cb2, cb3, VoxelRay2Iterator.mk.injEq, Prod.mk.injEq,
    IVec2.mk.injEq, ← WithTop.coe_add, WithTop.coe_eq_coe]
  norm_num

theorem cb_adv3 : advance cb3 = cb4 := by
  rw [advance_x (by
    rw [show cb3.t_max.1 = ((2 : ℚ) : XQ) from rfl,
      show cb3.t_max.2 = ((13/4 : ℚ) : XQ) from rfl, WithTop.coe_lt_coe]
    norm_num)]
  simp only [cb3, cb4, VoxelRay2Iterator.mk.injEq, Prod.mk.injEq,
    IVec2.mk.injEq, ← WithTop.coe_add, WithTop.coe_eq_coe]
  norm_num

/-- Claim C1 fails on the code: the first hit of the pre-clipped traversal
from `(-3, -4)` along the unit direction `(3/5, 4/5)` through volume
`(3, 4)` reports voxel `(0, 0)` with distance 2, although the ray only
enters voxel `(0, 0)` at distance 5 from the origin (conjunct 2: the ray
point at parameter 5 floors to `(0, 0)`; conjunct 3: at parameter `49/10`
the ray is still in voxel `(-1, -1)`), and `2 ≠ 5`.  Root cause: after the
pre-clip the source sets `t += (p - aabb).length() - 2.0`, which is
identically zero, so reported distances are measured from the backed-off
start, not from the ray origin. -/
theorem C1_distance_bug :
    (next 20 (VoxelRay2Iterator.new ⟨(3, 4)⟩ ⟨-3, -4⟩ ⟨3/5, 4/5⟩ 1 5
        ((100 : ℚ) : XQ))).1 =
      some ⟨((2 : ℚ) : XQ), ⟨0, 0⟩, some ⟨-1, 0⟩⟩ ∧
    Vec2.floor ⟨-3 + 5 * (3/5), -4 + 5 * (4/5)⟩ = ⟨0, 0⟩ ∧
    Vec2.floor ⟨-3 + (49/10) * (3/5), -4 + (49/10) * (4/5)⟩ = ⟨-1, -1⟩ ∧
    (2 : ℚ) ≠ 5 := by
  refine ⟨?_, ?_, ?_, by norm_num⟩
  · rw [cb0_eval, next_of_not_done 20 rfl]
    have c0 : cb0.t ≤ cb0.max_d := WithTop.coe_le_coe.mpr (by norm_num)
    have c1 : cb1.t ≤ cb1.max_d := WithTop.coe_le_coe.mpr (by norm_num)
    have c2 : cb2.t ≤ cb2.max_d := WithTop.coe_le_coe.mpr (by norm_num)
    have c3 : cb3.t ≤ cb3.max_d := WithTop.coe_le_coe.mpr (by norm_num)
    have c4 : cb4.t ≤ cb4.max_d := WithTop.coe_le_coe.mpr (by norm_num)
    rw [nextAux_skip 19 c0 (hitOf_out (by decide)), cb_adv0,
      nextAux_skip 18 c1 (hitOf_out (by decide)), cb_adv1,
      nextAux_skip 17 c2 (hitOf_out (by decide)), cb_adv2,
      nextAux_skip 16 c3 (hitOf_out (by decide)), cb_adv3,
      nextAux_emit 15 c4 (hitOf_in (by decide))]
    rfl
  · unfold Vec2.floor
    rw [qfloor_eq (-3 + 5 * (3/5)) 0 (by norm_num) (by norm_num),
      qfloor_eq (-4 + 5 * (4/5)) 0 (by norm_num) (by norm_num)]
  · unfold Vec2.floor
    rw [qfloor_eq (-3 + (49/10) * (3/5)) (-1) (by norm_num) (by norm_num),
      qfloor_eq (-4 + (49/10) * (4/5)) (-1) (by norm_num) (by norm_num)]

end FastVoxel
